import Mathlib

/-
Shallow embedding of the message/chat persistence and retrieval engine of the
whatsapp-mcp repository.

Modelling conventions:
- Timestamps are modelled as Int (Unix seconds).  The Go code stores
  time.Time values and reads them back as RFC3339 strings; RFC3339 string
  comparison agrees with chronological order, so Int order is faithful.
- The SQLite tables are modelled as lists of rows held in a Store record.
  Row order of a table models the unspecified physical storage order that
  SQL queries without an ORDER BY expose; a query that takes the first match
  (QueryRow) is modelled by List.find? over that order.
- INSERT OR REPLACE is modelled as: remove the rows with the conflicting
  primary key, append the new row.
- I/O failures of individual INSERT statements are modelled by an Oracle of
  boolean failure flags; a failing statement leaves the table unchanged and
  returns an error, exactly like a failed ExecContext call.  The sqlite
  connection runs with foreign keys enabled, so a message INSERT whose
  chat_jid has no chats row fails as a constraint violation.
- SQL LIKE with a pattern of the shape percent-query-percent is modelled as
  case-insensitive substring containment (SQLite LIKE is case-insensitive
  for ASCII by default); wildcard metacharacters inside the query text are
  not modelled.  Case folding is done with Char.toLower on the char list.
- ORDER BY is modelled with List.insertionSort; SQL leaves the relative
  order of ties unspecified, the model fixes one such order.
- LIMIT n with negative n is no limit in SQLite; sqlLimit models that.
-/

namespace WhatsappMcp

/-- Message row of the messages table (models.Message as persisted by db.StoreMessage):
id, chat_jid, sender, content, timestamp, is_from_me; primary key (id, chat_jid). -/
structure Message where
  id : String
  chatJID : String
  sender : String
  content : String
  timestamp : Int
  isFromMe : Bool
deriving DecidableEq, Repr

/-- Chat row of the chats table: jid (primary key), name, last_message_time. -/
structure Chat where
  jid : String
  name : String
  lastMessageTime : Int
deriving DecidableEq, Repr

/-- The two tables of messages.db created by db.initDB. -/
structure Store where
  chats : List Chat
  messages : List Message
deriving DecidableEq, Repr

/-- Errors surfaced by the db layer and the mcp query layer. -/
inductive Err where
  | storeFailure
  | fkViolation
  | notFound (id : String)
  | queryError
deriving DecidableEq, Repr

/-- Failure oracle deciding which individual INSERT statements fail with an
I/O error (ExecContext returning an error). -/
structure Oracle where
  failChat : Chat → Bool
  failMessage : Message → Bool

/-- db.StoreChat: INSERT OR REPLACE INTO chats (jid, name, last_message_time). -/
def upsertChat (s : Store) (c : Chat) : Store :=
  { s with chats := s.chats.filter (fun c0 => !(c0.jid == c.jid)) ++ [c] }

/-- db.StoreChat with its failure mode: a failed statement leaves the table
unchanged and returns the error. -/
def StoreChat (o : Oracle) (s : Store) (c : Chat) : Store × Option Err :=
  if o.failChat c then (s, some .storeFailure) else (upsertChat s c, none)

/-- db.StoreMessage: returns success without writing when content is empty,
otherwise INSERT OR REPLACE INTO messages keyed by (id, chat_jid).  The
statement can fail with an I/O error (oracle) or a foreign-key violation
(chat_jid has no chats row; PRAGMA foreign_keys = ON). -/
def StoreMessage (o : Oracle) (s : Store) (m : Message) : Store × Option Err :=
  if m.content = "" then (s, none)
  else if o.failMessage m then (s, some .storeFailure)
  else if s.chats.any (fun c => c.jid == m.chatJID) then
    ({ s with messages :=
        s.messages.filter (fun m0 => !(m0.id == m.id && m0.chatJID == m.chatJID)) ++ [m] },
      none)
  else (s, some .fkViolation)

/-- db.GetChat: sql.ErrNoRows is mapped to (nil, nil), i.e. an absent result
without an error; any other failure would be returned as an error. -/
def GetChat (s : Store) (jid : String) : Except Err (Option Chat) :=
  match s.chats.find? (fun c => c.jid == jid) with
  | none => .ok none
  | some c => .ok (some c)

/-- A chat-update event sent over Whatsapp.ChatChan (models.Chat as used by
the ingestion path: JID, Name, LastMessageTime and the Messages slice). -/
structure ChatEvent where
  jid : String
  name : String
  lastMessageTime : Int
  messages : List Message
deriving DecidableEq, Repr

/-- The message loop of service.storeChatAndMessage: store each message in
order; the first failing StoreMessage call makes the function return that
error immediately (earlier writes persist). -/
def storeMessages (o : Oracle) : Store → List Message → Store × Option Err
  | s, [] => (s, none)
  | s, m :: rest =>
    match StoreMessage o s m with
    | (s1, some e) => (s1, some e)
    | (s1, none) => storeMessages o s1 rest

/-- service.storeChatAndMessage: upsert the chat first; on chat failure
return without touching the messages, otherwise store the messages in order. -/
def storeChatAndMessage (o : Oracle) (s : Store) (ev : ChatEvent) : Store × Option Err :=
  match StoreChat o s ⟨ev.jid, ev.name, ev.lastMessageTime⟩ with
  | (s1, some e) => (s1, some e)
  | (s1, none) => storeMessages o s1 ev.messages

/-- The consumer goroutine of services.NewService: drain the channel in
order, apply each event, log any error and continue with the next event. -/
def processEvents (o : Oracle) (s : Store) : List ChatEvent → Store
  | [] => s
  | ev :: rest => processEvents o (storeChatAndMessage o s ev).1 rest

/-- Referential integrity of a store: every message row references an
existing chat row through chat_jid. -/
def fkInv (s : Store) : Bool :=
  s.messages.all (fun m => s.chats.any (fun c => c.jid == m.chatJID))

/-- Unix value of the Go zero time.Time (January 1, year 1 UTC), the initial
value of lastMessageTime in whatsapp.handleHistorySync. -/
def goZeroUnix : Int := -62135596800

/-- One entry of a history-sync conversation, with the proto getters the code
reads: GetMessage() presence, the key fields, the uint64 timestamp, the plain
conversation body and the extended-text body. -/
structure HistoryMsgInfo where
  hasMessage : Bool
  keyId : String
  keyParticipant : String
  keyFromMe : Bool
  messageTimestamp : Nat
  conversation : String
  extendedTextText : String
deriving DecidableEq, Repr

/-- One conversation of a history-sync payload. -/
structure HistoryConversation where
  id : String
  name : String
  messages : List HistoryMsgInfo
deriving DecidableEq, Repr

/-- The message the history loop builds for a kept entry: id and flags from
the key, sender from the participant, content from the extended-text body. -/
def histMessage (chatJID : String) (e : HistoryMsgInfo) : Message :=
  ⟨e.keyId, chatJID, e.keyParticipant, e.extendedTextText, (e.messageTimestamp : Int), e.keyFromMe⟩

/-- The inner loop of whatsapp.handleHistorySync: skip entries without a
message or with an empty extended-text body, track the running maximum
timestamp, append the built messages in order. -/
def historyLoop (chatJID : String) : List HistoryMsgInfo → Int → List Message → Int × List Message
  | [], t, acc => (t, acc)
  | e :: rest, t, acc =>
    if e.hasMessage = false then historyLoop chatJID rest t acc
    else if e.extendedTextText = "" then historyLoop chatJID rest t acc
    else
      historyLoop chatJID rest
        (if t < (e.messageTimestamp : Int) then (e.messageTimestamp : Int) else t)
        (acc ++ [histMessage chatJID e])

/-- whatsapp.handleHistorySync: iterate the conversations, skip those with an
empty id, build and return the chat event for the first remaining one; an
exhausted list yields the zero models.Chat. -/
def handleHistorySync : List HistoryConversation → ChatEvent
  | [] => ⟨"", "", goZeroUnix, []⟩
  | conv :: rest =>
    if conv.id = "" then handleHistorySync rest
    else
      let r := historyLoop conv.id conv.messages goZeroUnix []
      ⟨conv.id, conv.name, r.1, r.2⟩

/-- The keep condition of the history loop: GetMessage() is present and the
extended-text body is non-empty. -/
def historyKept (e : HistoryMsgInfo) : Bool :=
  e.hasMessage && !(e.extendedTextText == "")

/-- Case folding for SQL LIKE and LOWER: the char list of a string with every
char lowered. -/
def lowerChars (s : String) : List Char := s.data.map Char.toLower

/-- LIKE with a percent-query-percent pattern (case-insensitive substring
containment). -/
def containsCI (hay pat : String) : Bool :=
  decide (lowerChars pat <:+: lowerChars hay)

/-- LIKE with a percent-suffix pattern (case-insensitive suffix test). -/
def endsWithCI (s pat : String) : Bool :=
  decide (lowerChars pat <:+ lowerChars s)

/-- strings.Split(jid, "@")[0]: the prefix of the jid before its first
domain separator (the whole jid when it has none). -/
def phoneOf (jid : String) : String :=
  String.mk (jid.data.takeWhile (fun ch => ch != '@'))

/-- Result row of the message queries of the mcp package: the selected
columns messages.timestamp, messages.sender, chats.name, messages.content,
messages.is_from_me, chats.jid, messages.id. -/
structure MsgRow where
  timestamp : Int
  sender : String
  chatName : String
  content : String
  isFromMe : Bool
  chatJID : String
  id : String
deriving DecidableEq, Repr

/-- FROM messages JOIN chats ON messages.chat_jid = chats.jid, in storage
order of the messages table (jid is the primary key of chats, so at most one
chat row joins each message). -/
def msgJoinRows (s : Store) : List MsgRow :=
  s.messages.filterMap (fun m =>
    (s.chats.find? (fun c => c.jid == m.chatJID)).map (fun c =>
      ⟨m.timestamp, m.sender, c.name, m.content, m.isFromMe, c.jid, m.id⟩))

/-- ORDER BY messages.timestamp DESC. -/
def msgRowDescTs (a b : MsgRow) : Prop := b.timestamp ≤ a.timestamp

/-- ORDER BY messages.timestamp ASC. -/
def msgRowAscTs (a b : MsgRow) : Prop := a.timestamp ≤ b.timestamp

instance : DecidableRel msgRowDescTs :=
  fun a b => inferInstanceAs (Decidable (b.timestamp ≤ a.timestamp))

instance : DecidableRel msgRowAscTs :=
  fun a b => inferInstanceAs (Decidable (a.timestamp ≤ b.timestamp))

instance : IsTotal MsgRow msgRowDescTs := ⟨fun a b => le_total b.timestamp a.timestamp⟩

instance : IsTotal MsgRow msgRowAscTs := ⟨fun a b => le_total a.timestamp b.timestamp⟩

instance : IsTrans MsgRow msgRowDescTs := ⟨fun _ _ _ h1 h2 => le_trans h2 h1⟩

instance : IsTrans MsgRow msgRowAscTs := ⟨fun _ _ _ h1 h2 => le_trans h1 h2⟩

/-- LIMIT n in SQLite: a negative n means no limit. -/
def sqlLimit {α : Type} (n : Int) (l : List α) : List α :=
  if n < 0 then l else l.take n.toNat

/-- mcp.MessageContext: the target message with the rows of the two
neighbor queries. -/
structure MessageContext where
  message : MsgRow
  before : List MsgRow
  after : List MsgRow
deriving DecidableEq, Repr

/-- mcp.GetMessageContext: look the target up by id alone (first storage
match); the before query takes the same-chat rows with strictly earlier
timestamps ORDER BY timestamp DESC LIMIT before, the after query the
same-chat rows with strictly later timestamps ORDER BY timestamp ASC LIMIT
after.  A target id matching no joined row fails with a not-found error. -/
def GetMessageContext (s : Store) (messageID : String) (before after : Int) :
    Except Err MessageContext :=
  match (msgJoinRows s).find? (fun r => r.id == messageID) with
  | none => .error (.notFound messageID)
  | some t =>
    .ok
      { message := t
        before := sqlLimit before (List.insertionSort msgRowDescTs
          ((msgJoinRows s).filter (fun r =>
            r.chatJID == t.chatJID && decide (r.timestamp < t.timestamp))))
        after := sqlLimit after (List.insertionSort msgRowAscTs
          ((msgJoinRows s).filter (fun r =>
            r.chatJID == t.chatJID && decide (t.timestamp < r.timestamp)))) }

/-- The filter-and-sort part of mcp.ListMessages: the WHERE clauses are added
only for the provided criteria (a date range of exactly two bounds is
BETWEEN-inclusive), combined with AND, then ORDER BY messages.timestamp DESC. -/
def listMessagesRows (s : Store) (dateRange : List Int)
    (senderPhoneNumber chatJID query : String) : List MsgRow :=
  let rows := msgJoinRows s
  let rows := match dateRange with
    | [a, b] => rows.filter (fun r => decide (a ≤ r.timestamp) && decide (r.timestamp ≤ b))
    | _ => rows
  let rows := if senderPhoneNumber = "" then rows
    else rows.filter (fun r => r.sender == senderPhoneNumber)
  let rows := if chatJID = "" then rows
    else rows.filter (fun r => r.chatJID == chatJID)
  let rows := if query = "" then rows
    else rows.filter (fun r => containsCI r.content query)
  List.insertionSort msgRowDescTs rows

/-- The context-expansion loop of mcp.ListMessages: per matched message fetch
its context; a failed lookup is skipped with continue, a successful one
contributes before ++ match ++ after, all concatenated in match order. -/
def expandWithContext (s : Store) (contextBefore contextAfter : Int) :
    List MsgRow → List MsgRow
  | [] => []
  | r :: rest =>
    match GetMessageContext s r.id contextBefore contextAfter with
    | .error _ => expandWithContext s contextBefore contextAfter rest
    | .ok ctx =>
      ctx.before ++ ctx.message :: ctx.after
        ++ expandWithContext s contextBefore contextAfter rest

/-- mcp.ListMessages: normalize limit and page, run the filtered query with
LIMIT limit OFFSET page*limit, and expand each match in place when
includeContext is set and the window is non-empty. -/
def ListMessages (s : Store) (dateRange : List Int)
    (senderPhoneNumber chatJID query : String) (limit page : Int)
    (includeContext : Bool) (contextBefore contextAfter : Int) : List MsgRow :=
  let limit := if limit ≤ 0 then 20 else limit
  let page := if page < 0 then 0 else page
  let window := ((listMessagesRows s dateRange senderPhoneNumber chatJID query).drop
    ((page * limit).toNat)).take limit.toNat
  if includeContext && !window.isEmpty then
    expandWithContext s contextBefore contextAfter window
  else window

/-- The nullable last-message columns of a chat row (their sql Valid flags
are set together by the LEFT JOIN). -/
structure LastInfo where
  content : String
  sender : String
  isFromMe : Bool
deriving DecidableEq, Repr

/-- Result row of the chat queries of the mcp package: chats.jid, chats.name,
chats.last_message_time plus the nullable last-message enrichment. -/
structure ChatRow where
  jid : String
  name : String
  lastMessageTime : Int
  last : Option LastInfo
deriving DecidableEq, Repr

/-- ORDER BY chats.last_message_time DESC. -/
def chatRowTimeDesc (a b : ChatRow) : Prop := b.lastMessageTime ≤ a.lastMessageTime

/-- ORDER BY chats.name. -/
def chatRowNameAsc (a b : ChatRow) : Prop := a.name ≤ b.name

instance : DecidableRel chatRowTimeDesc :=
  fun a b => inferInstanceAs (Decidable (b.lastMessageTime ≤ a.lastMessageTime))

instance : DecidableRel chatRowNameAsc :=
  fun a b => inferInstanceAs (Decidable (a.name ≤ b.name))

instance : IsTotal ChatRow chatRowTimeDesc :=
  ⟨fun a b => le_total b.lastMessageTime a.lastMessageTime⟩

instance : IsTotal ChatRow chatRowNameAsc := ⟨fun a b => le_total a.name b.name⟩

instance : IsTrans ChatRow chatRowTimeDesc := ⟨fun _ _ _ h1 h2 => le_trans h2 h1⟩

instance : IsTrans ChatRow chatRowNameAsc := ⟨fun _ _ _ h1 h2 => le_trans h1 h2⟩

/-- The messages a chat joins under
LEFT JOIN messages ON chats.jid = messages.chat_jid
AND chats.last_message_time = messages.timestamp. -/
def chatLastMatches (s : Store) (c : Chat) : List Message :=
  s.messages.filter (fun m => c.jid == m.chatJID && c.lastMessageTime == m.timestamp)

/-- The LEFT JOIN rows a single chat contributes: one all-NULL-enriched row
when no message matches the watermark, otherwise one row per matching
message. -/
def chatMatchRows (s : Store) (c : Chat) : List ChatRow :=
  match chatLastMatches s c with
  | [] => [⟨c.jid, c.name, c.lastMessageTime, none⟩]
  | ms => ms.map (fun m => ⟨c.jid, c.name, c.lastMessageTime, some ⟨m.content, m.sender, m.isFromMe⟩⟩)

/-- The filter-join-sort part of mcp.ListChats with the last-message join:
an optional case-insensitive name-or-jid filter, the LEFT JOIN on the
watermark, then ORDER BY chats.name when sortBy is "name" and
ORDER BY chats.last_message_time DESC otherwise. -/
def listChatsRows (s : Store) (query sortBy : String) : List ChatRow :=
  let cs := if query = "" then s.chats
    else s.chats.filter (fun c => containsCI c.name query || containsCI c.jid query)
  let rows := cs.flatMap (chatMatchRows s)
  if sortBy = "name" then List.insertionSort chatRowNameAsc rows
  else List.insertionSort chatRowTimeDesc rows

/-- mcp.ListChats: normalize limit and page and paginate the joined rows.
Without includeLastMessage the generated SQL still selects the messages
columns but never joins the messages table, so the query itself fails. -/
def ListChats (s : Store) (query : String) (limit page : Int)
    (includeLastMessage : Bool) (sortBy : String) : Except Err (List ChatRow) :=
  let limit := if limit ≤ 0 then 20 else limit
  let page := if page < 0 then 0 else page
  if includeLastMessage then
    .ok (((listChatsRows s query sortBy).drop ((page * limit).toNat)).take limit.toNat)
  else .error .queryError

/-- mcp.Contact: phone number, name, jid. -/
structure Contact where
  phoneNumber : String
  name : String
  jid : String
deriving DecidableEq, Repr

/-- ORDER BY name, jid over the selected (jid, name) pairs. -/
def pairNameJidLe (a b : String × String) : Prop :=
  a.2 < b.2 ∨ (a.2 = b.2 ∧ a.1 ≤ b.1)

/-- The same order transported to the built contacts. -/
def contactNameJidLe (a b : Contact) : Prop :=
  a.name < b.name ∨ (a.name = b.name ∧ a.jid ≤ b.jid)

instance : DecidableRel pairNameJidLe :=
  fun a b => inferInstanceAs (Decidable (a.2 < b.2 ∨ (a.2 = b.2 ∧ a.1 ≤ b.1)))

instance : IsTotal (String × String) pairNameJidLe :=
  ⟨fun a b => by
    rcases lt_trichotomy a.2 b.2 with h | h | h
    · exact Or.inl (Or.inl h)
    · rcases le_total a.1 b.1 with h1 | h1
      · exact Or.inl (Or.inr ⟨h, h1⟩)
      · exact Or.inr (Or.inr ⟨h.symm, h1⟩)
    · exact Or.inr (Or.inl h)⟩

instance : IsTrans (String × String) pairNameJidLe :=
  ⟨fun a b c h1 h2 => by
    rcases h1 with h1 | ⟨h1e, h1j⟩
    · rcases h2 with h2 | ⟨h2e, _⟩
      · exact Or.inl (lt_trans h1 h2)
      · exact Or.inl (h2e ▸ h1)
    · rcases h2 with h2 | ⟨h2e, h2j⟩
      · exact Or.inl (h1e ▸ h2)
      · exact Or.inr ⟨h1e.trans h2e, le_trans h1j h2j⟩⟩

/-- The reserved domain suffix marking group chats. -/
def groupSuffix : String := "@g.us"

/-- mcp.SearchContacts: the non-group chats whose name or jid
case-insensitively contains the query, as DISTINCT (jid, name) pairs,
ORDER BY name, jid, LIMIT 50, with the phone number derived from the jid. -/
def SearchContacts (s : Store) (query : String) : List Contact :=
  let rows := (s.chats.filter (fun c =>
      (containsCI c.name query || containsCI c.jid query)
        && !(endsWithCI c.jid groupSuffix))).map (fun c => (c.jid, c.name))
  let rows := rows.dedup
  let rows := List.insertionSort pairNameJidLe rows
  let rows := rows.take 50
  rows.map (fun r => ⟨phoneOf r.1, r.2, r.1⟩)

/-- The filter-join-sort part of mcp.GetContactChats: chats having at least
one message (the inner join) where the chat jid equals the contact jid or
some message sender equals or contains the phone part, grouped by chat (the
enrichment picks one arbitrary watermark match; the model takes the first),
ORDER BY chats.last_message_time DESC. -/
def contactChatsRows (s : Store) (jid : String) : List ChatRow :=
  let phoneNumber := phoneOf jid
  let eligible := s.chats.filter (fun c =>
    s.messages.any (fun m => m.chatJID == c.jid)
      && (c.jid == jid
        || s.messages.any (fun m =>
          m.chatJID == c.jid && (m.sender == phoneNumber || containsCI m.sender phoneNumber))))
  let rows := eligible.map (fun c =>
    ChatRow.mk c.jid c.name c.lastMessageTime
      ((chatLastMatches s c).head?.map (fun m => ⟨m.content, m.sender, m.isFromMe⟩)))
  List.insertionSort chatRowTimeDesc rows

/-- mcp.GetContactChats: normalize limit and page and paginate the grouped
rows with LIMIT limit OFFSET page*limit. -/
def GetContactChats (s : Store) (jid : String) (limit page : Int) : List ChatRow :=
  let limit := if limit ≤ 0 then 20 else limit
  let page := if page < 0 then 0 else page
  ((contactChatsRows s jid).drop ((page * limit).toNat)).take limit.toNat

/-! Decidable equality of results, used to evaluate concrete runs. -/

instance exceptDecidableEq {ε α : Type} [DecidableEq ε] [DecidableEq α] :
    DecidableEq (Except ε α)
  | .ok a, .ok b =>
    if h : a = b then isTrue (by rw [h]) else isFalse (fun hh => h (Except.ok.inj hh))
  | .ok _, .error _ => isFalse (fun hh => Except.noConfusion hh)
  | .error _, .ok _ => isFalse (fun hh => Except.noConfusion hh)
  | .error a, .error b =>
    if h : a = b then isTrue (by rw [h]) else isFalse (fun hh => h (Except.error.inj hh))

/-! Concrete sample data used by witnesses and counterexamples.  The chat
holds five messages at timestamps 10, 20, 30, 40, 50, the shape of the
context-window example of the specification. -/

def exJid : String := "c@s.whatsapp.net"

def exName : String := "C"

def exSender : String := "p"

def exBody : String := "hi"

def exId10 : String := "m10"

def exId20 : String := "m20"

def exId30 : String := "m30"

def exId40 : String := "m40"

def exId50 : String := "m50"

def exIdMissing : String := "zz"

def exMsg (idn : String) (n : Int) : Message := ⟨idn, exJid, exSender, exBody, n, false⟩

def exRow (idn : String) (n : Int) : MsgRow := ⟨n, exSender, exName, exBody, false, exJid, idn⟩

def exChat : Chat := ⟨exJid, exName, 50⟩

def exStore : Store :=
  ⟨[exChat], [exMsg exId10 10, exMsg exId20 20, exMsg exId30 30, exMsg exId40 40, exMsg exId50 50]⟩

/-- An oracle under which no statement fails. -/
def exOracle : Oracle := ⟨fun _ => false, fun _ => false⟩

/-! Generic helper lemmas. -/

/-- A mapped function preserves list suffixes. -/
theorem map_suffix {α β : Type} (f : α → β) {l1 l2 : List α} (h : l1 <:+ l2) :
    l1.map f <:+ l2.map f := by
  obtain ⟨t, ht⟩ := h
  exact ⟨t.map f, by rw [← List.map_append, ht]⟩

/-- Membership in a LIMIT/OFFSET window implies membership in the full
result sequence. -/
theorem mem_of_window {α : Type} {l : List α} {d n : Nat} {x : α}
    (hx : x ∈ (l.drop d).take n) : x ∈ l :=
  List.drop_subset d l (List.take_subset n _ hx)

/-- The take of an insertion sort: its length, sortedness, membership in the
original pool, and completeness when the pool fits under the limit. -/
theorem sortTake_props {α : Type} (r : α → α → Prop) [DecidableRel r] [IsTotal α r]
    [IsTrans α r] (pool : List α) (n : Nat) :
    ((List.insertionSort r pool).take n).length = min n pool.length
      ∧ List.Sorted r ((List.insertionSort r pool).take n)
      ∧ (∀ x ∈ (List.insertionSort r pool).take n, x ∈ pool)
      ∧ (pool.length ≤ n → ∀ x ∈ pool, x ∈ (List.insertionSort r pool).take n) := by
  have hperm := List.perm_insertionSort r pool
  refine ⟨?_, ?_, ?_, ?_⟩
  · rw [List.length_take, hperm.length_eq]
  · exact (List.sorted_insertionSort r pool).sublist (List.take_sublist n _)
  · intro x hx
    exact hperm.mem_iff.mp (List.take_subset n _ hx)
  · intro hlen x hx
    have hall : (List.insertionSort r pool).take n = List.insertionSort r pool := by
      apply List.take_of_length_le
      rw [hperm.length_eq]
      exact hlen
    rw [hall]
    exact hperm.mem_iff.mpr hx

/-! Claim C3. -/

/-- C3: a message with empty content makes StoreMessage a no-op: it returns
success without an error and leaves the stored rows unchanged, whatever the
store state and whatever statements the oracle would fail. -/
theorem C3_empty_content_noop (o : Oracle) (s : Store) (m : Message)
    (h : m.content = "") : StoreMessage o s m = (s, none) := by
  unfold StoreMessage
  rw [if_pos h]

/-- C3 witness: an empty-content message, under an oracle that fails every
statement, still succeeds and changes nothing. -/
theorem C3_empty_content_noop_witness :
    (Message.mk exId10 exJid exSender "" 3 true).content = ""
      ∧ StoreMessage ⟨fun _ => true, fun _ => true⟩ exStore
          (Message.mk exId10 exJid exSender "" 3 true) = (exStore, none) :=
  ⟨rfl, C3_empty_content_noop _ _ _ rfl⟩

/-! Claim C7. -/

/-- C7: a jid matching no chats row makes GetChat return an absent result
inside the success constructor, distinguishable by type from a query or I/O
failure; by contrast the context lookup of an unknown message id fails with
a not-found error. -/
theorem C7_absent_chat_not_error (s : Store) (jid mid : String) (b a : Int)
    (hchat : ∀ c ∈ s.chats, ¬ c.jid = jid)
    (hmsg : ∀ m ∈ s.messages, ¬ m.id = mid) :
    GetChat s jid = .ok none
      ∧ GetMessageContext s mid b a = .error (.notFound mid) := by
  constructor
  · unfold GetChat
    have hfind : s.chats.find? (fun c => c.jid == jid) = none := by
      apply List.find?_eq_none.mpr
      intro c hc
      simpa using hchat c hc
    rw [hfind]
  · unfold GetMessageContext
    have hfind : (msgJoinRows s).find? (fun r => r.id == mid) = none := by
      apply List.find?_eq_none.mpr
      intro r hr
      obtain ⟨m, hm, hmr⟩ := List.mem_filterMap.mp hr
      obtain ⟨c, _, hcr⟩ := Option.map_eq_some'.mp hmr
      have : r.id = m.id := by rw [← hcr]
      simpa [this] using hmsg m hm
    rw [hfind]

/-- C7 witness at the sample store: an unknown jid is an absent chat, an
unknown message id is a not-found context error. -/
theorem C7_absent_chat_not_error_witness :
    GetChat exStore exIdMissing = .ok none
      ∧ GetMessageContext exStore exIdMissing 2 1 = .error (.notFound exIdMissing) :=
  C7_absent_chat_not_error exStore exIdMissing exIdMissing 2 1
    (by decide) (by decide)

/-! Claim C10. -/

/-- C10: in the context-expansion loop of ListMessages, a matched message
whose context lookup fails is silently omitted, no error escapes the loop,
and the expansions of the matches before and after it are still produced. -/
theorem C10_failed_context_lookup_skipped (s : Store) (cb ca : Int)
    (pre post : List MsgRow) (r : MsgRow) (e : Err)
    (hfail : GetMessageContext s r.id cb ca = .error e) :
    expandWithContext s cb ca (pre ++ r :: post)
      = expandWithContext s cb ca pre ++ expandWithContext s cb ca post := by
  induction pre with
  | nil => simp [expandWithContext, hfail]
  | cons a t ih =>
    simp only [List.cons_append, expandWithContext]
    cases h : GetMessageContext s a.id cb ca with
    | error e2 => simpa [h] using ih
    | ok ctx => simp [h, ih, List.append_assoc]

/-- C10 witness: a row whose id matches no stored message fails its context
lookup and is dropped, while its neighbors are both expanded. -/
theorem C10_failed_context_lookup_skipped_witness :
    GetMessageContext exStore (exRow exIdMissing 7).id 1 0 = .error (.notFound exIdMissing)
      ∧ expandWithContext exStore 1 0
          ([exRow exId10 10] ++ (exRow exIdMissing 7) :: [exRow exId30 30])
        = expandWithContext exStore 1 0 [exRow exId10 10]
            ++ expandWithContext exStore 1 0 [exRow exId30 30] :=
  ⟨by decide,
    C10_failed_context_lookup_skipped exStore 1 0 [exRow exId10 10] [exRow exId30 30]
      (exRow exIdMissing 7) (.notFound exIdMissing) (by decide)⟩

/-! Claim C8. -/

/-- C8: the three list operations normalize a non-positive limit to 20 and a
negative page to 0, and each returns the window of its full result sequence
that skips exactly page * limit rows (with the normalized values); the
window at index i is the full sequence at index page * limit + i. -/
theorem C8_pagination_contract (s : Store) (dateRange : List Int)
    (senderPhoneNumber chatJID query jid sortBy : String)
    (limit page contextBefore contextAfter : Int) :
    let nl := if limit ≤ 0 then (20 : Int) else limit
    let np := if page < 0 then (0 : Int) else page
    ListMessages s dateRange senderPhoneNumber chatJID query limit page false
        contextBefore contextAfter
      = ((listMessagesRows s dateRange senderPhoneNumber chatJID query).drop
          ((np * nl).toNat)).take nl.toNat
    ∧ ListChats s query limit page true sortBy
      = .ok (((listChatsRows s query sortBy).drop ((np * nl).toNat)).take nl.toNat)
    ∧ GetContactChats s jid limit page
      = ((contactChatsRows s jid).drop ((np * nl).toNat)).take nl.toNat
    ∧ ∀ (rows : List MsgRow) (i : Nat),
        ((rows.drop ((np * nl).toNat)).take nl.toNat)[i]?
          = if i < nl.toNat then rows[(np * nl).toNat + i]? else none := by
  intro nl np
  refine ⟨rfl, rfl, rfl, ?_⟩
  intro rows i
  simp [List.getElem?_take, List.getElem?_drop]

/-! Claim C1: counterexample data.  The oracle fails exactly the first
message of a two-message event; the second message is storable on its own,
yet it never reaches the store because storeChatAndMessage returns at the
first failure. -/

def c1Jid : String := "c@x"

def c1Name : String := "n"

def c1Id1 : String := "e1"

def c1Id2 : String := "e2"

def c1BodyA : String := "a"

def c1BodyB : String := "b"

def c1Msg1 : Message := ⟨c1Id1, c1Jid, exSender, c1BodyA, 1, false⟩

def c1Msg2 : Message := ⟨c1Id2, c1Jid, exSender, c1BodyB, 2, false⟩

def c1Oracle : Oracle := ⟨fun _ => false, fun m => m.id == c1Id1⟩

def c1Event : ChatEvent := ⟨c1Jid, c1Name, 2, [c1Msg1, c1Msg2]⟩

def c1ChatRow : Chat := ⟨c1Jid, c1Name, 2⟩

/-- C1 counterexample: with a store write failing on the first message of
the event, the second message of the same event is never applied even
though storing it at the reached state would succeed, so ingestion does not
continue with the remaining messages of the event. -/
theorem C1_counterexample :
    c1Oracle.failMessage c1Msg2 = false
      ∧ ¬ c1Msg2.content = ""
      ∧ (StoreMessage c1Oracle (storeChatAndMessage c1Oracle ⟨[], []⟩ c1Event).1 c1Msg2).2 = none
      ∧ (storeChatAndMessage c1Oracle ⟨[], []⟩ c1Event).1.messages = []
      ∧ (storeChatAndMessage c1Oracle ⟨[], []⟩ c1Event).2 = some .storeFailure := by
  refine ⟨by decide, by decide, by decide, by decide, by decide⟩

/-- C1 as amended: a failing message upsert ends the processing of that
event at the failing message (the messages after it in the same event are
not applied and the error is returned to the consumer loop, which logs it),
while the pipeline itself continues with the next event unconditionally. -/
theorem C1_partial_failure_aborts_event_only (o : Oracle) (s : Store) (ev : ChatEvent)
    (rest : List ChatEvent) (s1 : Store) (pre post : List Message) (m : Message)
    (hpre : (storeMessages o s1 pre).2 = none)
    (hfail : (StoreMessage o (storeMessages o s1 pre).1 m).2.isSome = true) :
    processEvents o s (ev :: rest) = processEvents o (storeChatAndMessage o s ev).1 rest
      ∧ storeMessages o s1 (pre ++ m :: post) = StoreMessage o (storeMessages o s1 pre).1 m := by
  refine ⟨rfl, ?_⟩
  induction pre generalizing s1 with
  | nil =>
    simp only [storeMessages] at hfail
    rcases h2 : StoreMessage o s1 m with ⟨s2, r2⟩
    rw [h2] at hfail
    cases r2 with
    | none => simp at hfail
    | some e => simp [storeMessages, h2]
  | cons a t ih =>
    rcases ha : StoreMessage o s1 a with ⟨sa, ra⟩
    cases ra with
    | some e =>
      rw [show storeMessages o s1 (a :: t) = (sa, some e) by simp [storeMessages, ha]] at hpre
      simp at hpre
    | none =>
      have hstep : storeMessages o s1 (a :: t) = storeMessages o sa t := by
        simp [storeMessages, ha]
      rw [hstep] at hpre hfail
      calc storeMessages o s1 ((a :: t) ++ m :: post)
          = storeMessages o sa (t ++ m :: post) := by simp [storeMessages, ha]
        _ = StoreMessage o (storeMessages o sa t).1 m := ih sa hpre hfail
        _ = StoreMessage o (storeMessages o s1 (a :: t)).1 m := by rw [hstep]

/-- C1 witness: at the counterexample event, the failure on the first
message returns immediately with the state reached, and the pipeline step
moves on to the remaining events. -/
theorem C1_partial_failure_aborts_event_only_witness :
    ((storeMessages c1Oracle ⟨[c1ChatRow], []⟩ []).2 = none
        ∧ (StoreMessage c1Oracle (storeMessages c1Oracle ⟨[c1ChatRow], []⟩ []).1 c1Msg1).2.isSome = true)
      ∧ processEvents c1Oracle ⟨[], []⟩ (c1Event :: [])
          = processEvents c1Oracle (storeChatAndMessage c1Oracle ⟨[], []⟩ c1Event).1 []
      ∧ storeMessages c1Oracle ⟨[c1ChatRow], []⟩ ([] ++ c1Msg1 :: [c1Msg2])
          = StoreMessage c1Oracle (storeMessages c1Oracle ⟨[c1ChatRow], []⟩ []).1 c1Msg1 := by
  refine ⟨⟨by decide, by decide⟩, ?_, ?_⟩
  · exact (C1_partial_failure_aborts_event_only c1Oracle ⟨[], []⟩ c1Event []
      ⟨[c1ChatRow], []⟩ [] [c1Msg2] c1Msg1 (by decide) (by decide)).1
  · exact (C1_partial_failure_aborts_event_only c1Oracle ⟨[], []⟩ c1Event []
      ⟨[c1ChatRow], []⟩ [] [c1Msg2] c1Msg1 (by decide) (by decide)).2

/-! Claim C4: referential integrity through ingestion. -/

/-- A jid covered by the chats table stays covered through a chat upsert
(the replaced row keeps its jid). -/
theorem covered_upsertChat (s : Store) (c : Chat) (j : String)
    (h : s.chats.any (fun c0 => c0.jid == j) = true) :
    (upsertChat s c).chats.any (fun c0 => c0.jid == j) = true := by
  unfold upsertChat
  simp only [List.any_eq_true, beq_iff_eq] at h ⊢
  obtain ⟨c0, hmem, hj⟩ := h
  by_cases hcase : c0.jid = c.jid
  · exact ⟨c, by simp, by rw [← hcase, hj]⟩
  · exact ⟨c0, by simp [List.mem_filter, hmem, hcase], hj⟩

/-- StoreChat preserves referential integrity. -/
theorem fkInv_StoreChat (o : Oracle) (s : Store) (c : Chat)
    (h : fkInv s = true) : fkInv (StoreChat o s c).1 = true := by
  unfold StoreChat
  by_cases hf : o.failChat c
  · simpa [hf] using h
  · simp only [hf, Bool.false_eq_true, if_false]
    unfold fkInv at h ⊢
    simp only [List.all_eq_true] at h ⊢
    intro m hm
    have hm2 : m ∈ s.messages := by
      simpa [upsertChat] using hm
    exact covered_upsertChat s c m.chatJID (h m hm2)

/-- StoreMessage preserves referential integrity: a write either fails and
changes nothing, or inserts a message whose chat row exists. -/
theorem fkInv_StoreMessage (o : Oracle) (s : Store) (m : Message)
    (h : fkInv s = true) : fkInv (StoreMessage o s m).1 = true := by
  unfold StoreMessage
  by_cases h1 : m.content = ""
  · simpa [h1] using h
  by_cases h2 : o.failMessage m
  · simpa [h1, h2] using h
  by_cases h3 : s.chats.any (fun c => c.jid == m.chatJID) = true
  · simp only [h1, h2, h3, if_neg, if_pos, Bool.false_eq_true, if_false, if_true]
    unfold fkInv at h ⊢
    simp only [List.all_eq_true] at h ⊢
    intro m0 hm0
    simp only [List.mem_append, List.mem_filter] at hm0
    rcases hm0 with ⟨hm0, _⟩ | hm0
    · exact h m0 hm0
    · have : m0 = m := by simpa using hm0
      rw [this]
      exact h3
  · simpa [h1, h2, h3] using h

/-- The message loop preserves referential integrity. -/
theorem fkInv_storeMessages (o : Oracle) (l : List Message) :
    ∀ s : Store, fkInv s = true → fkInv (storeMessages o s l).1 = true := by
  induction l with
  | nil => intro s h; simpa [storeMessages] using h
  | cons m rest ih =>
    intro s h
    rcases hsm : StoreMessage o s m with ⟨s1, r1⟩
    have h1 : fkInv s1 = true := by
      have := fkInv_StoreMessage o s m h
      rwa [hsm] at this
    cases r1 with
    | some e => simpa [storeMessages, hsm] using h1
    | none =>
      have : storeMessages o s (m :: rest) = storeMessages o s1 rest := by
        simp [storeMessages, hsm]
      rw [this]
      exact ih s1 h1

/-- C4: the ingestion step upserts the chat before any of its messages, and
with the store enforcing the message foreign key, referential integrity is
preserved by every single step and by any run of the consumer loop. -/
theorem C4_referential_integrity (o : Oracle) (s : Store) (h : fkInv s = true) :
    (∀ ev : ChatEvent, fkInv (storeChatAndMessage o s ev).1 = true)
      ∧ ∀ evs : List ChatEvent, fkInv (processEvents o s evs) = true := by
  have hstep : ∀ (s1 : Store) (ev : ChatEvent), fkInv s1 = true →
      fkInv (storeChatAndMessage o s1 ev).1 = true := by
    intro s1 ev h1
    unfold storeChatAndMessage
    rcases hsc : StoreChat o s1 ⟨ev.jid, ev.name, ev.lastMessageTime⟩ with ⟨s2, r2⟩
    have h2 : fkInv s2 = true := by
      have := fkInv_StoreChat o s1 ⟨ev.jid, ev.name, ev.lastMessageTime⟩ h1
      rwa [hsc] at this
    cases r2 with
    | some e => simpa using h2
    | none => simpa using fkInv_storeMessages o ev.messages s2 h2
  refine ⟨fun ev => hstep s ev h, ?_⟩
  intro evs
  induction evs generalizing s with
  | nil => simpa [processEvents] using h
  | cons ev rest ih =>
    have h1 := hstep s ev h
    simpa [processEvents] using ih (storeChatAndMessage o s ev).1 h1

/-- C4 witness: the integrity invariant of the sample store survives a
concrete ingestion step and a concrete two-event run. -/
theorem C4_referential_integrity_witness :
    fkInv exStore = true
      ∧ ((∀ ev : ChatEvent, fkInv (storeChatAndMessage c1Oracle exStore ev).1 = true)
        ∧ ∀ evs : List ChatEvent, fkInv (processEvents c1Oracle exStore evs) = true) :=
  ⟨by decide, C4_referential_integrity c1Oracle exStore (by decide)⟩

/-! Claim C5: history sync. -/

/-- The history loop appends exactly the kept entries, in order, to its
accumulator. -/
theorem historyLoop_msgs (j : String) (es : List HistoryMsgInfo) :
    ∀ (t : Int) (acc : List Message),
      (historyLoop j es t acc).2 = acc ++ (es.filter historyKept).map (histMessage j) := by
  induction es with
  | nil => intro t acc; simp [historyLoop]
  | cons e rest ih =>
    intro t acc
    by_cases h1 : e.hasMessage
    · by_cases h2 : e.extendedTextText = ""
      · simp [historyLoop, h1, h2, historyKept, ih]
      · simp [historyLoop, h1, h2, historyKept, ih]
    · simp only [Bool.not_eq_true] at h1
      simp [historyLoop, h1, historyKept, ih]

/-- The running maximum of the history loop: it never decreases, bounds the
timestamp of every kept entry, and is the initial value or the timestamp of
some kept entry. -/
theorem historyLoop_time (j : String) (es : List HistoryMsgInfo) :
    ∀ (t : Int) (acc : List Message),
      t ≤ (historyLoop j es t acc).1
        ∧ (∀ e ∈ es.filter historyKept,
            (e.messageTimestamp : Int) ≤ (historyLoop j es t acc).1)
        ∧ ((historyLoop j es t acc).1 = t
            ∨ ∃ e ∈ es.filter historyKept,
                (historyLoop j es t acc).1 = (e.messageTimestamp : Int)) := by
  induction es with
  | nil => intro t acc; simp [historyLoop]
  | cons e rest ih =>
    intro t acc
    by_cases h1 : e.hasMessage
    · by_cases h2 : e.extendedTextText = ""
      · have hk : historyKept e = false := by simp [historyKept, h2]
        simpa [historyLoop, h1, h2, hk] using ih t acc
      · have hk : historyKept e = true := by simp [historyKept, h1, h2]
        have hstep : historyLoop j (e :: rest) t acc
            = historyLoop j rest
                (if t < (e.messageTimestamp : Int) then (e.messageTimestamp : Int) else t)
                (acc ++ [histMessage j e]) := by
          simp [historyLoop, h1, h2]
        set t2 := if t < (e.messageTimestamp : Int) then (e.messageTimestamp : Int) else t with ht2
        have htle : t ≤ t2 := by
          rw [ht2]; split
          · omega
          · exact le_refl t
        have hele : (e.messageTimestamp : Int) ≤ t2 := by
          rw [ht2]; split
          · exact le_refl _
          · omega
        obtain ⟨ih1, ih2, ih3⟩ := ih t2 (acc ++ [histMessage j e])
        rw [hstep]
        refine ⟨le_trans htle ih1, ?_, ?_⟩
        · intro e2 he2
          rw [List.filter_cons_of_pos hk] at he2  -- membership in e :: filter rest
          rcases List.mem_cons.mp he2 with he2 | he2
          · rw [he2]; exact le_trans hele ih1
          · exact ih2 e2 he2
        · rcases ih3 with ih3 | ⟨e2, he2, hv⟩
          · rw [ih3, ht2]
            split
            · exact Or.inr ⟨e, by simp [List.filter_cons_of_pos hk], rfl⟩
            · exact Or.inl rfl
          · exact Or.inr ⟨e2, by rw [List.filter_cons_of_pos hk]; exact List.mem_cons_of_mem e he2, hv⟩
    · simp only [Bool.not_eq_true] at h1
      have hk : historyKept e = false := by simp [historyKept, h1]
      simpa [historyLoop, h1, hk] using ih t acc

/-- handleHistorySync builds its event from the first conversation with a
non-empty id. -/
theorem handleHistorySync_first_valid (convs : List HistoryConversation)
    (conv : HistoryConversation)
    (hfind : convs.find? (fun c => !(c.id == "")) = some conv) :
    handleHistorySync convs
      = ⟨conv.id, conv.name, (historyLoop conv.id conv.messages goZeroUnix []).1,
          (historyLoop conv.id conv.messages goZeroUnix []).2⟩ := by
  induction convs with
  | nil => simp [List.find?] at hfind
  | cons c rest ih =>
    by_cases hc : c.id = ""
    · rw [List.find?_cons_of_neg _ (by simp [hc])] at hfind
      simp only [handleHistorySync, hc, if_pos]
      exact ih hfind
    · rw [List.find?_cons_of_pos _ (by simp [hc])] at hfind
      injection hfind with h
      subst h
      simp [handleHistorySync, hc]

/-- The keep condition asserted by the claim: a recoverable message body or
extended-text body. -/
def c5ClaimRecoverable (e : HistoryMsgInfo) : Bool :=
  e.hasMessage && (!(e.conversation == "") || !(e.extendedTextText == ""))

def c5EntryId : String := "h1"

def c5Part : String := "p1"

def c5Body : String := "plain body"

def c5ConvJid : String := "cv@s.whatsapp.net"

def c5ConvName : String := "nm"

/-- A history entry with a message whose plain conversation body is present
but whose extended-text body is empty. -/
def c5Entry : HistoryMsgInfo := ⟨true, c5EntryId, c5Part, false, 100, c5Body, ""⟩

def c5Conv : HistoryConversation := ⟨c5ConvJid, c5ConvName, [c5Entry]⟩

/-- C5 counterexample: the payload has one entry with a recoverable message
body (a plain conversation text), yet the produced event carries no
messages: the code only recovers extended-text bodies, so the Messages
sequence does not contain the entries the claim describes. -/
theorem C5_counterexample :
    (c5Conv.messages.filter c5ClaimRecoverable).length = 1
      ∧ (handleHistorySync [c5Conv]).messages.length = 0 := by
  exact ⟨by decide, by decide⟩

/-- C5 as amended: the event is built from the first conversation with a
non-empty id; its Messages are exactly the payload entries that have a
message with a non-empty extended-text body (a plain conversation body is
not recovered), and last_message_time is the maximum timestamp over those
recovered messages (the zero time when none is recovered). -/
theorem C5_history_extended_text_only (convs : List HistoryConversation)
    (conv : HistoryConversation)
    (hfind : convs.find? (fun c => !(c.id == "")) = some conv) :
    (handleHistorySync convs).jid = conv.id
      ∧ (handleHistorySync convs).name = conv.name
      ∧ (handleHistorySync convs).messages
          = (conv.messages.filter historyKept).map (histMessage conv.id)
      ∧ (∀ m ∈ (handleHistorySync convs).messages,
          m.timestamp ≤ (handleHistorySync convs).lastMessageTime)
      ∧ ((handleHistorySync convs).messages = []
          → (handleHistorySync convs).lastMessageTime = goZeroUnix)
      ∧ ((handleHistorySync convs).messages ≠ []
          → ∃ m ∈ (handleHistorySync convs).messages,
              (handleHistorySync convs).lastMessageTime = m.timestamp) := by
  rw [handleHistorySync_first_valid convs conv hfind]
  have hmsgs := historyLoop_msgs conv.id conv.messages goZeroUnix []
  have htime := historyLoop_time conv.id conv.messages goZeroUnix []
  simp only [List.nil_append] at hmsgs
  obtain ⟨ht1, ht2, ht3⟩ := htime
  refine ⟨rfl, rfl, hmsgs, ?_, ?_, ?_⟩
  · intro m hm
    simp only [hmsgs] at hm
    obtain ⟨e, he, hme⟩ := List.mem_map.mp hm
    have : m.timestamp = (e.messageTimestamp : Int) := by rw [← hme]; rfl
    rw [this]
    exact ht2 e he
  · intro hempty
    simp only [hmsgs, List.map_eq_nil_iff] at hempty
    rcases ht3 with ht3 | ⟨e, he, _⟩
    · exact ht3
    · rw [hempty] at he
      simp at he
  · intro hne
    simp only [hmsgs, ne_eq, List.map_eq_nil_iff] at hne
    rcases ht3 with ht3 | ⟨e, he, hv⟩
    · obtain ⟨e, he⟩ := List.exists_mem_of_ne_nil _ hne
      have h0 : (0 : Int) ≤ (e.messageTimestamp : Int) := Int.natCast_nonneg _
      have hle := ht2 e he
      rw [ht3] at hle
      have : goZeroUnix < 0 := by decide
      omega
    · refine ⟨histMessage conv.id e, ?_, ?_⟩
      · rw [hmsgs]
        exact List.mem_map.mpr ⟨e, he, rfl⟩
      · rw [hv]; rfl

def c5Id2 : String := "h2"

def c5Part2 : String := "p2"

def c5ExtBody : String := "ext body"

/-- A history entry the code keeps: message present, non-empty extended
text. -/
def c5EntryKept : HistoryMsgInfo := ⟨true, c5Id2, c5Part2, true, 50, "", c5ExtBody⟩

/-- A conversation with an empty id, skipped by the outer loop. -/
def c5EmptyConv : HistoryConversation := ⟨"", "", [c5EntryKept]⟩

def c5WConv : HistoryConversation := ⟨c5ConvJid, c5ConvName, [c5Entry, c5EntryKept]⟩

/-- C5 witness: a payload whose first conversation has an empty id and whose
second mixes a skipped and a kept entry satisfies every amended conjunct. -/
theorem C5_history_extended_text_only_witness :
    ([c5EmptyConv, c5WConv].find? (fun c => !(c.id == "")) = some c5WConv)
      ∧ ((handleHistorySync [c5EmptyConv, c5WConv]).jid = c5WConv.id
        ∧ (handleHistorySync [c5EmptyConv, c5WConv]).name = c5WConv.name
        ∧ (handleHistorySync [c5EmptyConv, c5WConv]).messages
            = (c5WConv.messages.filter historyKept).map (histMessage c5WConv.id)
        ∧ (∀ m ∈ (handleHistorySync [c5EmptyConv, c5WConv]).messages,
            m.timestamp ≤ (handleHistorySync [c5EmptyConv, c5WConv]).lastMessageTime)
        ∧ ((handleHistorySync [c5EmptyConv, c5WConv]).messages = []
            → (handleHistorySync [c5EmptyConv, c5WConv]).lastMessageTime = goZeroUnix)
        ∧ ((handleHistorySync [c5EmptyConv, c5WConv]).messages ≠ []
            → ∃ m ∈ (handleHistorySync [c5EmptyConv, c5WConv]).messages,
                (handleHistorySync [c5EmptyConv, c5WConv]).lastMessageTime = m.timestamp)) :=
  ⟨by decide, C5_history_extended_text_only [c5EmptyConv, c5WConv] c5WConv (by decide)⟩

/-! Claim C2: context window. -/

/-- Properties of one side query of the context window: a LIMIT n over an
ORDER BY of a WHERE filter, for a non-negative n. -/
theorem sortTakeFilter_props (base : List MsgRow) (pred : MsgRow → Bool)
    (r : MsgRow → MsgRow → Prop) [DecidableRel r] [IsTotal MsgRow r] [IsTrans MsgRow r]
    (n : Int) (hn : 0 ≤ n) :
    (sqlLimit n (List.insertionSort r (base.filter pred))).length
        = min n.toNat (base.filter pred).length
      ∧ List.Sorted r (sqlLimit n (List.insertionSort r (base.filter pred)))
      ∧ (∀ x ∈ sqlLimit n (List.insertionSort r (base.filter pred)), x ∈ base ∧ pred x = true)
      ∧ ((base.filter pred).length ≤ n.toNat →
          ∀ x ∈ base, pred x = true → x ∈ sqlLimit n (List.insertionSort r (base.filter pred))) := by
  have hsl : sqlLimit n (List.insertionSort r (base.filter pred))
      = (List.insertionSort r (base.filter pred)).take n.toNat := by
    unfold sqlLimit
    rw [if_neg (by omega)]
  obtain ⟨h1, h2, h3, h4⟩ := sortTake_props r (base.filter pred) n.toNat
  rw [hsl]
  refine ⟨h1, h2, ?_, ?_⟩
  · intro x hx
    have hm := h3 x hx
    exact ⟨(List.mem_filter.mp hm).1, (List.mem_filter.mp hm).2⟩
  · intro hlen x hxb hxp
    exact h4 hlen x (List.mem_filter.mpr ⟨hxb, hxp⟩)

/-- C2 as amended: the context window returns the first stored message whose
id matches; the before side holds up to the requested number of same-chat
messages with strictly earlier timestamps ordered DESCENDING by timestamp
(nearest first), the after side up to the requested number of same-chat
messages with strictly later timestamps ordered ascending; each side is
independently limited and an undersized side holds all such messages,
unpadded. -/
theorem C2_context_window (s : Store) (mid : String) (b a : Int) (ctx : MessageContext)
    (hb : 0 ≤ b) (ha : 0 ≤ a)
    (hok : GetMessageContext s mid b a = .ok ctx) :
    ctx.message.id = mid
      ∧ ctx.message ∈ msgJoinRows s
      ∧ ctx.before.length
          = min b.toNat ((msgJoinRows s).filter (fun r =>
              r.chatJID == ctx.message.chatJID
                && decide (r.timestamp < ctx.message.timestamp))).length
      ∧ List.Sorted msgRowDescTs ctx.before
      ∧ (∀ r ∈ ctx.before, r ∈ msgJoinRows s ∧ r.chatJID = ctx.message.chatJID
          ∧ r.timestamp < ctx.message.timestamp)
      ∧ (((msgJoinRows s).filter (fun r =>
            r.chatJID == ctx.message.chatJID
              && decide (r.timestamp < ctx.message.timestamp))).length ≤ b.toNat
          → ∀ r ∈ msgJoinRows s, r.chatJID = ctx.message.chatJID
              → r.timestamp < ctx.message.timestamp → r ∈ ctx.before)
      ∧ ctx.after.length
          = min a.toNat ((msgJoinRows s).filter (fun r =>
              r.chatJID == ctx.message.chatJID
                && decide (ctx.message.timestamp < r.timestamp))).length
      ∧ List.Sorted msgRowAscTs ctx.after
      ∧ (∀ r ∈ ctx.after, r ∈ msgJoinRows s ∧ r.chatJID = ctx.message.chatJID
          ∧ ctx.message.timestamp < r.timestamp)
      ∧ (((msgJoinRows s).filter (fun r =>
            r.chatJID == ctx.message.chatJID
              && decide (ctx.message.timestamp < r.timestamp))).length ≤ a.toNat
          → ∀ r ∈ msgJoinRows s, r.chatJID = ctx.message.chatJID
              → ctx.message.timestamp < r.timestamp → r ∈ ctx.after) := by
  unfold GetMessageContext at hok
  cases hfind : (msgJoinRows s).find? (fun r => r.id == mid) with
  | none =>
    rw [hfind] at hok
    exact Except.noConfusion hok
  | some t =>
    rw [hfind] at hok
    obtain rfl : ctx = _ := (Except.ok.inj hok).symm
    have hid : t.id = mid := by simpa using List.find?_some hfind
    have hmem : t ∈ msgJoinRows s := List.mem_of_find?_eq_some hfind
    obtain ⟨b1, b2, b3, b4⟩ := sortTakeFilter_props (msgJoinRows s)
      (fun r => r.chatJID == t.chatJID && decide (r.timestamp < t.timestamp))
      msgRowDescTs b hb
    obtain ⟨a1, a2, a3, a4⟩ := sortTakeFilter_props (msgJoinRows s)
      (fun r => r.chatJID == t.chatJID && decide (t.timestamp < r.timestamp))
      msgRowAscTs a ha
    refine ⟨hid, hmem, b1, b2, ?_, ?_, a1, a2, ?_, ?_⟩
    · intro r hr
      obtain ⟨hrm, hrp⟩ := b3 r hr
      simp only [Bool.and_eq_true, beq_iff_eq, decide_eq_true_eq] at hrp
      exact ⟨hrm, hrp.1, hrp.2⟩
    · intro hlen r hrm hcj hts
      exact b4 hlen r hrm (by simp [hcj, hts])
    · intro r hr
      obtain ⟨hrm, hrp⟩ := a3 r hr
      simp only [Bool.and_eq_true, beq_iff_eq, decide_eq_true_eq] at hrp
      exact ⟨hrm, hrp.1, hrp.2⟩
    · intro hlen r hrm hcj hts
      exact a4 hlen r hrm (by simp [hcj, hts])

/-- The context the code returns at the sample store for the target at
timestamp 30 with before = 2 and after = 1: the before side is descending. -/
def c2Ctx : MessageContext :=
  ⟨exRow exId30 30, [exRow exId20 20, exRow exId10 10], [exRow exId40 40]⟩

/-- C2 counterexample: at the specification example (timestamps 10..50,
target 30, before = 2, after = 1) the before side comes back [20, 10],
descending by timestamp, not ascending as the claim states. -/
theorem C2_counterexample :
    GetMessageContext exStore exId30 2 1 = .ok c2Ctx
      ∧ c2Ctx.before.map MsgRow.timestamp = [20, 10]
      ∧ ¬ List.Sorted msgRowAscTs c2Ctx.before := by
  refine ⟨by decide, by decide, ?_⟩
  intro h
  have hrel : msgRowAscTs (exRow exId20 20) (exRow exId10 10) :=
    (List.pairwise_cons.mp h).1 (exRow exId10 10) (List.mem_singleton.mpr rfl)
  exact absurd hrel (by decide)

/-- C2 witness: the amended statement evaluated at the specification
example. -/
theorem C2_context_window_witness :
    GetMessageContext exStore exId30 2 1 = .ok c2Ctx
      ∧ (c2Ctx.message.id = exId30
        ∧ c2Ctx.message ∈ msgJoinRows exStore
        ∧ c2Ctx.before.length
            = min (2 : Int).toNat ((msgJoinRows exStore).filter (fun r =>
                r.chatJID == c2Ctx.message.chatJID
                  && decide (r.timestamp < c2Ctx.message.timestamp))).length
        ∧ List.Sorted msgRowDescTs c2Ctx.before
        ∧ (∀ r ∈ c2Ctx.before, r ∈ msgJoinRows exStore ∧ r.chatJID = c2Ctx.message.chatJID
            ∧ r.timestamp < c2Ctx.message.timestamp)
        ∧ (((msgJoinRows exStore).filter (fun r =>
              r.chatJID == c2Ctx.message.chatJID
                && decide (r.timestamp < c2Ctx.message.timestamp))).length ≤ (2 : Int).toNat
            → ∀ r ∈ msgJoinRows exStore, r.chatJID = c2Ctx.message.chatJID
                → r.timestamp < c2Ctx.message.timestamp → r ∈ c2Ctx.before)
        ∧ c2Ctx.after.length
            = min (1 : Int).toNat ((msgJoinRows exStore).filter (fun r =>
                r.chatJID == c2Ctx.message.chatJID
                  && decide (c2Ctx.message.timestamp < r.timestamp))).length
        ∧ List.Sorted msgRowAscTs c2Ctx.after
        ∧ (∀ r ∈ c2Ctx.after, r ∈ msgJoinRows exStore ∧ r.chatJID = c2Ctx.message.chatJID
            ∧ c2Ctx.message.timestamp < r.timestamp)
        ∧ (((msgJoinRows exStore).filter (fun r =>
              r.chatJID == c2Ctx.message.chatJID
                && decide (c2Ctx.message.timestamp < r.timestamp))).length ≤ (1 : Int).toNat
            → ∀ r ∈ msgJoinRows exStore, r.chatJID = c2Ctx.message.chatJID
                → c2Ctx.message.timestamp < r.timestamp → r ∈ c2Ctx.after)) :=
  ⟨by decide, C2_context_window exStore exId30 2 1 c2Ctx (by decide) (by decide) (by decide)⟩

/-! Claim C6: last-message enrichment is an equality join. -/

/-- Every row of the joined chat listing comes from some chat of the store. -/
theorem mem_listChatsRows (s : Store) (query sortBy : String) (r : ChatRow)
    (hr : r ∈ listChatsRows s query sortBy) :
    ∃ c ∈ s.chats, r ∈ chatMatchRows s c := by
  simp only [listChatsRows] at hr
  have hmem : r ∈ (if query = "" then s.chats
      else s.chats.filter (fun c => containsCI c.name query || containsCI c.jid query)).flatMap
        (chatMatchRows s) := by
    by_cases hs : sortBy = "name"
    · rw [if_pos hs] at hr
      exact (List.perm_insertionSort _ _).mem_iff.mp hr
    · rw [if_neg hs] at hr
      exact (List.perm_insertionSort _ _).mem_iff.mp hr
  obtain ⟨c, hc, hcr⟩ := List.mem_flatMap.mp hmem
  refine ⟨c, ?_, hcr⟩
  by_cases hq : query = ""
  · rwa [if_pos hq] at hc
  · rw [if_neg hq] at hc
    exact (List.mem_filter.mp hc).1

/-- What a LEFT JOIN row of a single chat looks like: the chat columns, and
either an all-NULL enrichment with no watermark match in the store, or the
columns of some message matching the watermark join condition. -/
theorem chatMatchRows_cases (s : Store) (c : Chat) (r : ChatRow)
    (hr : r ∈ chatMatchRows s c) :
    r.jid = c.jid ∧ r.name = c.name ∧ r.lastMessageTime = c.lastMessageTime
      ∧ ((r.last = none
            ∧ ∀ m ∈ s.messages, ¬ (c.jid = m.chatJID ∧ c.lastMessageTime = m.timestamp))
        ∨ ∃ m ∈ s.messages, c.jid = m.chatJID ∧ c.lastMessageTime = m.timestamp
            ∧ r.last = some ⟨m.content, m.sender, m.isFromMe⟩) := by
  unfold chatMatchRows at hr
  cases hm : chatLastMatches s c with
  | nil =>
    rw [hm] at hr
    simp only [List.mem_singleton] at hr
    subst hr
    refine ⟨rfl, rfl, rfl, Or.inl ⟨rfl, ?_⟩⟩
    intro m hmm hcontra
    unfold chatLastMatches at hm
    have hnp := List.filter_eq_nil_iff.mp hm m hmm
    exact hnp (by simp [hcontra.1, hcontra.2])
  | cons m0 ms =>
    rw [hm] at hr
    obtain ⟨m, hmem2, hfm⟩ := List.mem_map.mp hr
    have hmf : m ∈ chatLastMatches s c := by rw [hm]; exact hmem2
    unfold chatLastMatches at hmf
    obtain ⟨hms, hpred⟩ := List.mem_filter.mp hmf
    simp only [Bool.and_eq_true, beq_iff_eq] at hpred
    subst hfm
    exact ⟨rfl, rfl, rfl, Or.inr ⟨m, hms, hpred.1, hpred.2, rfl⟩⟩

/-- C6: with the last message requested, every returned chat row is enriched
through an equality join on the watermark: a present enrichment is the
content of some stored message of that chat whose timestamp exactly equals
the last_message_time of the chat, and a chat whose last_message_time
matches no stored message timestamp comes back with an absent last message. -/
theorem C6_last_message_equality_join (s : Store) (query sortBy : String)
    (limit page : Int) (rows : List ChatRow)
    (hok : ListChats s query limit page true sortBy = .ok rows)
    (r : ChatRow) (hr : r ∈ rows) :
    (∃ c ∈ s.chats, r.jid = c.jid ∧ r.name = c.name ∧ r.lastMessageTime = c.lastMessageTime)
      ∧ (∀ li : LastInfo, r.last = some li
          → ∃ m ∈ s.messages, m.chatJID = r.jid ∧ m.timestamp = r.lastMessageTime
              ∧ li = ⟨m.content, m.sender, m.isFromMe⟩)
      ∧ (r.last = none
          → ∀ m ∈ s.messages, ¬ (m.chatJID = r.jid ∧ m.timestamp = r.lastMessageTime)) := by
  simp only [ListChats, if_true] at hok
  have hrw : r ∈ listChatsRows s query sortBy := by
    have hrows := Except.ok.inj hok
    rw [← hrows] at hr
    exact mem_of_window hr
  obtain ⟨c, hc, hcr⟩ := mem_listChatsRows s query sortBy r hrw
  obtain ⟨hjid, hname, htime, hcase⟩ := chatMatchRows_cases s c r hcr
  refine ⟨⟨c, hc, hjid, hname, htime⟩, ?_, ?_⟩
  · intro li hli
    rcases hcase with ⟨hnone, _⟩ | ⟨m, hms, hcj, hts, hsome⟩
    · rw [hnone] at hli
      exact Option.noConfusion hli
    · refine ⟨m, hms, ?_, ?_, ?_⟩
      · rw [hjid, hcj]
      · rw [htime, hts]
      · rw [hsome] at hli
        exact (Option.some.inj hli).symm
  · intro hnone m hms hcontra
    rcases hcase with ⟨_, hno⟩ | ⟨m2, _, _, _, hsome⟩
    · refine hno m hms ⟨?_, ?_⟩
      · rw [← hjid, hcontra.1]
      · rw [← htime, hcontra.2]
    · rw [hsome] at hnone
      exact Option.noConfusion hnone

def c6JidA : String := "a@x"

def c6JidB : String := "b@x"

def c6NameA : String := "A"

def c6NameB : String := "B"

def c6Hello : String := "hello"

def c6SortKey : String := "last_active"

/-- A store where chat A has a message exactly at its watermark and chat B
has none at its watermark. -/
def c6Store : Store :=
  ⟨[⟨c6JidA, c6NameA, 10⟩, ⟨c6JidB, c6NameB, 20⟩],
    [⟨exId10, c6JidA, exSender, c6Hello, 10, false⟩,
      ⟨exId20, c6JidB, exSender, exBody, 15, false⟩]⟩

def c6RowA : ChatRow := ⟨c6JidA, c6NameA, 10, some ⟨c6Hello, exSender, false⟩⟩

def c6RowB : ChatRow := ⟨c6JidB, c6NameB, 20, none⟩

/-- C6 witness: at the concrete store, the enriched row of chat A satisfies
every conjunct of the equality-join statement. -/
theorem C6_last_message_equality_join_witness :
    ListChats c6Store "" 20 0 true c6SortKey = .ok [c6RowB, c6RowA]
      ∧ ((∃ c ∈ c6Store.chats, c6RowA.jid = c.jid ∧ c6RowA.name = c.name
            ∧ c6RowA.lastMessageTime = c.lastMessageTime)
        ∧ (∀ li : LastInfo, c6RowA.last = some li
            → ∃ m ∈ c6Store.messages, m.chatJID = c6RowA.jid
                ∧ m.timestamp = c6RowA.lastMessageTime
                ∧ li = ⟨m.content, m.sender, m.isFromMe⟩)
        ∧ (c6RowA.last = none
            → ∀ m ∈ c6Store.messages,
                ¬ (m.chatJID = c6RowA.jid ∧ m.timestamp = c6RowA.lastMessageTime))) :=
  ⟨by decide,
    C6_last_message_equality_join c6Store "" c6SortKey 20 0 [c6RowB, c6RowA]
      (by decide) c6RowA (by decide)⟩

/-! Claim C9: contact search. -/

/-- C9: contact search returns at most 50 distinct chats; every returned
contact is non-group (its jid does not end in the group suffix), its name or
jid case-insensitively contains the query, its phone number is its jid
truncated at the domain separator, and the results are ordered by name then
jid. -/
theorem C9_search_contacts (s : Store) (q : String)
    (hnd : (s.chats.map Chat.jid).Nodup) :
    (SearchContacts s q).length ≤ 50
      ∧ (∀ cont ∈ SearchContacts s q,
          ¬ (groupSuffix.data <:+ cont.jid.data)
          ∧ (containsCI cont.name q || containsCI cont.jid q) = true
          ∧ cont.phoneNumber = phoneOf cont.jid)
      ∧ List.Sorted contactNameJidLe (SearchContacts s q)
      ∧ ((SearchContacts s q).map Contact.jid).Nodup := by
  have hSC : SearchContacts s q
      = ((List.insertionSort pairNameJidLe
            (((s.chats.filter (fun c =>
                (containsCI c.name q || containsCI c.jid q)
                  && !(endsWithCI c.jid groupSuffix))).map
              (fun c => (c.jid, c.name))).dedup)).take 50).map
          (fun r => ⟨phoneOf r.1, r.2, r.1⟩) := rfl
  rw [hSC]
  set pairs := (s.chats.filter (fun c =>
      (containsCI c.name q || containsCI c.jid q)
        && !(endsWithCI c.jid groupSuffix))).map (fun c => (c.jid, c.name)) with hpairs
  set st := List.insertionSort pairNameJidLe pairs.dedup with hst
  refine ⟨?_, ?_, ?_, ?_⟩
  · rw [List.length_map]
    exact List.length_take_le 50 st
  · intro cont hcont
    obtain ⟨p, hp, hpc⟩ := List.mem_map.mp hcont
    have hppairs : p ∈ pairs := by
      have h1 : p ∈ st := List.take_subset 50 st hp
      have h2 : p ∈ pairs.dedup := (List.perm_insertionSort _ _).mem_iff.mp h1
      exact List.dedup_sublist pairs |>.subset h2
    obtain ⟨c, hcmem, hcp⟩ := List.mem_map.mp hppairs
    obtain ⟨_, hcpred⟩ := List.mem_filter.mp hcmem
    simp only [Bool.and_eq_true, Bool.not_eq_eq_eq_not, Bool.not_true] at hcpred
    have hjid : cont.jid = c.jid := by rw [← hpc, ← hcp]
    have hname : cont.name = c.name := by rw [← hpc, ← hcp]
    refine ⟨?_, ?_, ?_⟩
    · intro hsuf
      have hlow : lowerChars groupSuffix <:+ lowerChars cont.jid :=
        map_suffix Char.toLower hsuf
      rw [hjid] at hlow
      have : endsWithCI c.jid groupSuffix = true := decide_eq_true hlow
      rw [hcpred.2] at this
      exact Bool.noConfusion this
    · rw [hjid, hname]
      exact hcpred.1
    · rw [← hpc]
  · exact List.Pairwise.map _ (fun a b h => h)
      ((List.sorted_insertionSort pairNameJidLe pairs.dedup).sublist (List.take_sublist 50 st))
  · have hp : (pairs.map Prod.fst).Nodup := by
      rw [hpairs, List.map_map]
      have hsub : ((s.chats.filter (fun c =>
          (containsCI c.name q || containsCI c.jid q)
            && !(endsWithCI c.jid groupSuffix))).map Chat.jid).Sublist (s.chats.map Chat.jid) :=
        (List.filter_sublist s.chats).map Chat.jid
      exact hnd.sublist hsub
    have hd : (pairs.dedup.map Prod.fst).Nodup :=
      hp.sublist ((List.dedup_sublist pairs).map Prod.fst)
    have hsrt : (st.map Prod.fst).Nodup :=
      (((List.perm_insertionSort pairNameJidLe pairs.dedup)).map Prod.fst).nodup_iff.mpr hd
    have htk : ((st.take 50).map Prod.fst).Nodup :=
      hsrt.sublist ((List.take_sublist 50 st).map Prod.fst)
    have heq : ((st.take 50).map (fun r => (⟨phoneOf r.1, r.2, r.1⟩ : Contact))).map Contact.jid
        = (st.take 50).map Prod.fst := by
      rw [List.map_map]
      rfl
    rw [heq]
    exact htk

def c9JidAlice : String := "123@s.whatsapp.net"

def c9JidGroup : String := "99@g.us"

def c9JidBob : String := "77@s.whatsapp.net"

def c9Alice : String := "Alice"

def c9GroupName : String := "aliceGroup"

def c9Bob : String := "aLired"

def c9Query : String := "ali"

/-- A store with two matching non-group chats (one matching only through a
case difference) and a matching group chat that must be excluded. -/
def c9Store : Store :=
  ⟨[⟨c9JidAlice, c9Alice, 5⟩, ⟨c9JidGroup, c9GroupName, 9⟩, ⟨c9JidBob, c9Bob, 3⟩], []⟩

/-- C9 witness: the search over the concrete store satisfies every
conjunct. -/
theorem C9_search_contacts_witness :
    (c9Store.chats.map Chat.jid).Nodup
      ∧ ((SearchContacts c9Store c9Query).length ≤ 50
        ∧ (∀ cont ∈ SearchContacts c9Store c9Query,
            ¬ (groupSuffix.data <:+ cont.jid.data)
            ∧ (containsCI cont.name c9Query || containsCI cont.jid c9Query) = true
            ∧ cont.phoneNumber = phoneOf cont.jid)
        ∧ List.Sorted contactNameJidLe (SearchContacts c9Store c9Query)
        ∧ ((SearchContacts c9Store c9Query).map Contact.jid).Nodup) :=
  ⟨by decide, C9_search_contacts c9Store c9Query (by decide)⟩

end WhatsappMcp
